import Mathlib

/-!
Verification development for the `eulumies` library: a shallow embedding of
the IESNA LM-63 codec (`ies.go`), the line reader (`filereader.go`) and the
cross-format converter (`conversion.go`), with theorems settling the frozen
claims about the specification.

Modelling conventions:
* Go strings are Lean `String`; Go `len(s)` (UTF-8 byte count) is `goLen`.
* Go `map[string]string` is an association list `List (String × String)`
  with unique keys maintained by construction; Go map iteration order is
  unspecified, the embedding iterates entries in list order.
* Go `float64` values are carried as `ℚ` — the code only copies and stores
  them, it never computes with them in the embedded fragments.
* Fallible Go code returns `Except String _` (errors carry the `fmt.Errorf`
  text); a Go runtime panic (out-of-bounds index) is a distinct outcome.
* A `bufio.Scanner` over a file is a current line plus a `List String` of
  remaining lines.
-/

namespace Eulumies

/-- UTF-8 byte length of a string, the meaning of Go's `len(s)`. -/
def goLen (s : String) : Nat := (s.data.map Char.utf8Size).sum

/-- `unicode.IsSpace` restricted to the Latin-1 range (Go trims these):
`\t \n \v \f \r ' ' U+0085 U+00A0`. -/
def isGoSpace (c : Char) : Bool :=
  c == ' ' || c == '\t' || c == '\n' || c == '\x0b' || c == '\x0c' ||
  c == '\r' || c == '\x85' || c == '\xa0'

/-- Go `strings.TrimSpace`: drop `unicode.IsSpace` characters from both ends. -/
def trimGo (s : String) : String :=
  String.mk (((s.data.dropWhile isGoSpace).reverse.dropWhile isGoSpace).reverse)

/-- RE2 `\s` character class: `[\t\n\f\r ]`. -/
def isSpaceREChar (c : Char) : Bool :=
  c == ' ' || c == '\t' || c == '\n' || c == '\x0c' || c == '\r'

/-- RE2 `\w` character class: `[0-9A-Za-z_]`. -/
def isWordChar (c : Char) : Bool :=
  ('a' ≤ c && c ≤ 'z') || ('A' ≤ c && c ≤ 'Z') || ('0' ≤ c && c ≤ '9') || c == '_'

/-! ### Association-list model of Go's `map[string]string` -/

/-- Reading `m[k]`: `some v` when present, `none` when absent. -/
def mapLookup (m : List (String × String)) (k : String) : Option String :=
  match m with
  | [] => none
  | (k', v) :: rest => if k' = k then some v else mapLookup rest k

/-- Go `delete(m, k)`. -/
def mapErase (m : List (String × String)) (k : String) : List (String × String) :=
  match m with
  | [] => []
  | (k', v) :: rest => if k' = k then mapErase rest k else (k', v) :: mapErase rest k

/-- Go `m[k] = v` (insert or overwrite). -/
def mapInsert (m : List (String × String)) (k v : String) : List (String × String) :=
  (k, v) :: mapErase m k

/-- Go `m[k] += suffix` (a missing key reads as `""`). -/
def mapAppendGo (m : List (String × String)) (k suffix : String) :
    List (String × String) :=
  match mapLookup m k with
  | some v => mapInsert m k (v ++ suffix)
  | none => mapInsert m k suffix

/-! ### IES data model (`ies.go`) -/

/-- `IESFormat`; the Go zero value `""` is identified with `unknown`
(every code path treats the two alike). -/
inductive IESFormat where
  | unknown
  | lm1986
  | lm1991
  | lm1995
  | lm2002
deriving DecidableEq, Repr

/-- `IESTilt`; `tiltUnset` is the Go zero value `""`. -/
inductive IESTilt where
  | tiltInclude
  | tiltFile
  | tiltNone
  | tiltUnset
deriving DecidableEq, Repr

/-- The Go string constant for a format (used in error messages). -/
def formatName (f : IESFormat) : String :=
  match f with
  | .unknown => "UNKNOWN"
  | .lm1986 => "LM-63-1986"
  | .lm1991 => "LM-63-1991"
  | .lm1995 => "LM-63-1995"
  | .lm2002 => "LM-63-2002"

/-- The `IES` structure of `ies.go`; the internal parser fields
(`insideBlock`, `lastKeyword`) live in `ParseState` below. Defaults are the
Go zero values. -/
structure IES where
  Format : IESFormat := .unknown
  Keywords : List (String × String) := []
  Tilt : IESTilt := .tiltUnset
  TiltLampToLuminaireGeometry : Int := 0
  TiltAnglesAndFactors : Int := 0
  TiltAngles : List ℚ := []
  TiltMultiplierFactors : List ℚ := []
  NumberLamps : Int := 0
  LumensPerLamp : ℚ := 0
  CandelaMultiplier : ℚ := 0
  NumberVerticalAngles : Int := 0
  NumberHorizontalAngles : Int := 0
  PhotometricType : Int := 0
  UnitsType : Int := 0
  LuminaireWidth : ℚ := 0
  LuminaireLength : ℚ := 0
  LuminaireHeight : ℚ := 0
  BallastFactor : ℚ := 0
  FutureUse : ℚ := 0
  InputWatts : ℚ := 0
  VerticalAngles : List ℚ := []
  HorizontalAngles : List ℚ := []
  CandelaValues : List (List ℚ) := []
deriving DecidableEq, Repr

/-! ### Per-revision keyword tables (`ies.go`) -/

def keywordAllowedByIesna02 (keyword : String) : Bool :=
  keyword == "TEST" ||
  keyword == "TESTLAB" ||
  keyword == "TESTDATE" ||
  keyword == "NEARFIELD" ||
  keyword == "MANUFAC" ||
  keyword == "LUMCAT" ||
  keyword == "LUMINAIRE" ||
  keyword == "LAMPCAT" ||
  keyword == "LAMP" ||
  keyword == "BALLAST" ||
  keyword == "BALLASTCAT" ||
  keyword == "MAINTCAT" ||
  keyword == "DISTRIBUTION" ||
  keyword == "FLASHAREA" ||
  keyword == "COLORCONSTANT" ||
  keyword == "LAMPPOSITION" ||
  keyword == "ISSUEDATE" ||
  keyword == "OTHER" ||
  keyword == "SEARCH" ||
  keyword == "MORE"

def keywordAllowedByIesna95 (keyword : String) : Bool :=
  keyword == "TEST" ||
  keyword == "DATE" ||
  keyword == "NEARFIELD" ||
  keyword == "MANUFAC" ||
  keyword == "LUMCAT" ||
  keyword == "LUMINAIRE" ||
  keyword == "LAMPCAT" ||
  keyword == "LAMP" ||
  keyword == "BALLAST" ||
  keyword == "BALLASTCAT" ||
  keyword == "MAINTCAT" ||
  keyword == "DISTRIBUTION" ||
  keyword == "FLASHAREA" ||
  keyword == "COLORCONSTANT" ||
  keyword == "OTHER" ||
  keyword == "SEARCH" ||
  keyword == "MORE" ||
  keyword == "BLOCK" ||
  keyword == "ENDBLOCK"

def keywordAllowedByIesna91 (keyword : String) : Bool :=
  keyword == "TEST" ||
  keyword == "DATE" ||
  keyword == "MANUFAC" ||
  keyword == "LUMCAT" ||
  keyword == "LUMINAIRE" ||
  keyword == "LAMPCAT" ||
  keyword == "LAMP" ||
  keyword == "BALLAST" ||
  keyword == "BALLASTCAT" ||
  keyword == "MAINTCAT" ||
  keyword == "DISTRIBUTION" ||
  keyword == "FLASHAREA" ||
  keyword == "COLORCONSTANT" ||
  keyword == "MORE"

/-- `(*IES).isKeywordAllowed`, with the receiver's format as a parameter. -/
def isKeywordAllowed (fmt : IESFormat) (keyword : String) : Bool :=
  if keyword = "" then false
  else if goLen keyword > 18 then false
  else if fmt = .unknown then true
  else if keyword.data.head? = some '_' then true
  else
    match fmt with
    | .unknown => true
    | .lm1986 => true
    | .lm1991 => keywordAllowedByIesna91 keyword
    | .lm1995 => keywordAllowedByIesna95 keyword
    | .lm2002 => keywordAllowedByIesna02 keyword

def checkIesna02RequiredKeywords (keywords : List (String × String)) : Bool :=
  ["TEST", "TESTLAB", "ISSUEDATE", "MANUFAC"].all
    (fun k => (mapLookup keywords k).isSome)

def checkIesna91RequiredKeywords (keywords : List (String × String)) : Bool :=
  ["TEST", "MANUFAC"].all (fun k => (mapLookup keywords k).isSome)

/-- `(*IES).ContainsRequiredKeywords`. -/
def containsRequiredKeywords (fmt : IESFormat)
    (keywords : List (String × String)) : Bool :=
  match fmt with
  | .unknown => true
  | .lm1986 => true
  | .lm1991 => checkIesna91RequiredKeywords keywords
  | .lm1995 => true
  | .lm2002 => checkIesna02RequiredKeywords keywords

/-- `(*IES).maxDataLineLength` (the two bytes of `\r\n` already subtracted). -/
def maxDataLineLength (fmt : IESFormat) : Nat :=
  match fmt with
  | .lm1986 => 132 - 2
  | .lm1991 => 132 - 2
  | .lm1995 => 132 - 2
  | .lm2002 => 256 - 2
  | .unknown => 0

/-! ### EULUMDAT data model and cross-format converter (`conversion.go`) -/

/-- Modelled from the spec: the EULUMDAT codec source (`eulumdat.go`) is not
under `src/`; this structure has the fields of spec §3 that
`ConvertEulumdatToIES` in `conversion.go` reads (the full model has further
scalar header fields that the converter never touches). -/
structure Eulumdat where
  CompanyIdentification : String := ""
  MeasurementReportNumber : String := ""
  LuminaireName : String := ""
  LuminaireNumber : String := ""
  FileName : String := ""
  DateUser : String := ""
  LengthDiameter : ℚ := 0
  WidthLuminaire : ℚ := 0
  HeightLuminaire : ℚ := 0
  NumberLamps : List Int := []
  TypeLamps : List String := []
  TotalLuminousFluxLamps : List ℚ := []
  BallastWatts : List ℚ := []
  AnglesG : List ℚ := []
  LuminousIntensityDistribution : List (List ℚ) := []
deriving DecidableEq, Repr

/-- `ConvertEulumdatToIES` (`conversion.go:3-36`). The Go code indexes
`TypeLamps[0]`, `NumberLamps[0]`, `TotalLuminousFluxLamps[0]` and
`BallastWatts[0]` unconditionally; a Go index-out-of-range panic is modelled
as `none`, a normal return as `some`. -/
def ConvertEulumdatToIES (eulumdat : Eulumdat) : Option IES := do
  let lamp ← eulumdat.TypeLamps.get? 0
  let numberLamps ← eulumdat.NumberLamps.get? 0
  let lumensPerLamp ← eulumdat.TotalLuminousFluxLamps.get? 0
  let inputWatts ← eulumdat.BallastWatts.get? 0
  some
    { Format := .lm2002
      Tilt := .tiltNone
      Keywords :=
        (([] : List (String × String))
          |> (mapInsert · "TEST" eulumdat.MeasurementReportNumber)
          |> (mapInsert · "TESTLAB" eulumdat.CompanyIdentification)
          |> (mapInsert · "ISSUEDATE" eulumdat.DateUser)
          |> (mapInsert · "MANUFAC" eulumdat.CompanyIdentification)
          |> (mapInsert · "LUMINAIRE" eulumdat.LuminaireName)
          |> (mapInsert · "LUMCAT" eulumdat.LuminaireNumber)
          |> (mapInsert · "LAMP" lamp)
          |> (mapInsert · "OTHER" ("converted using eulumies: " ++ eulumdat.FileName)))
      NumberLamps := numberLamps
      LumensPerLamp := lumensPerLamp
      CandelaMultiplier := 1
      NumberVerticalAngles := eulumdat.AnglesG.length
      NumberHorizontalAngles := 1
      PhotometricType := 1
      UnitsType := 2
      LuminaireWidth := eulumdat.WidthLuminaire
      LuminaireLength := eulumdat.LengthDiameter
      LuminaireHeight := eulumdat.HeightLuminaire
      BallastFactor := 1
      FutureUse := 1
      InputWatts := inputWatts
      VerticalAngles := eulumdat.AnglesG
      HorizontalAngles := [0]
      CandelaValues := eulumdat.LuminousIntensityDistribution }

/-- `ConvertIESToEulumdat` (`conversion.go:38-40`): `return nil, nil`.
The Go pair `(*Eulumdat, error)` is modelled componentwise; both are `nil`. -/
def ConvertIESToEulumdat (_ : IES) : Option Eulumdat × Option String :=
  (none, none)

/-! ### Line 11 of the IES photometric data (`ies.go:197-210`) -/

/-- The line-11 field assignments of `NewIES` (`ies.go:197-210`), after
`getWordListFromInput` collected the run of 3 tokens. The Go code parses
`words[1]` into `BallastFactor`, `words[1]` again into `FutureUse`, and
`words[2]` into `InputWatts`; `strconv.ParseFloat` is a parameter `pf`, and
an out-of-range index is `none`. Returns
(`BallastFactor`, `FutureUse`, `InputWatts`). -/
def parseLine11 (pf : String → Option ℚ) (words : List String) :
    Option (ℚ × ℚ × ℚ) := do
  let w1 ← words.get? 1
  let ballastFactor ← pf w1
  let w1' ← words.get? 1
  let futureUse ← pf w1'
  let w2 ← words.get? 2
  let inputWatts ← pf w2
  some (ballastFactor, futureUse, inputWatts)

/-! ### EULUMDAT symmetry arithmetic -/

/-- Modelled from the spec: the EULUMDAT codec source (`eulumdat.go`) is not
under `src/`; this is the symmetry-to-range table of spec §4.2, mapping a
symmetry indicator and the C-plane count `Mc` to the 1-based plane bounds
`(mc1, mc2)` and the reshape count `mc`, with truncating integer division. -/
def symmetryRange (symmetry Mc : Nat) : Option (Nat × Nat × Nat) :=
  match symmetry with
  | 0 => some (1, Mc, Mc)
  | 1 => some (1, 1, 1)
  | 2 => some (1, Mc / 2 + 1, Mc / 2 + 1)
  | 3 => some (3 * Mc / 4 + 1, (3 * Mc / 4 + 1) + Mc / 2, Mc / 2 + 1)
  | 4 => some (1, Mc / 4 + 1, Mc / 4 + 1)
  | _ => none

/-! ### `(*IES).Validate` (`ies.go:449-477`) -/

/-- `(*IES).Validate`; the `strict` pass adds no checks in the source
(a TODO). Returns the `(ok, message)` pair. -/
def Validate (i : IES) (strict : Bool) : Bool × String :=
  let _ := strict
  if !(containsRequiredKeywords i.Format i.Keywords) then
    (false, "required keywords not present")
  else if !(i.NumberVerticalAngles = (i.VerticalAngles.length : Int)) then
    (false, "VerticalAngles length mismatch")
  else if !(i.NumberHorizontalAngles = (i.HorizontalAngles.length : Int)) then
    (false, "HorizontalAngles length mismatch")
  else if !(i.NumberHorizontalAngles = (i.CandelaValues.length : Int)) then
    (false, "CandelaValues horizontal length mismatch")
  else if !(i.CandelaValues.all
      (fun c => i.NumberVerticalAngles = (c.length : Int))) then
    (false, "CandelaValues vertical length mismatch")
  else (true, "")

/-! ### `(*IES).Upgrade` (`ies.go:411-446`) -/

/-- The placeholder block of `Upgrade` (`ies.go:418-431`): if a required
keyword of the (now 2002) revision is missing, bind it to `"unknown"`. -/
def fixRequiredKeywords (ks : List (String × String)) : List (String × String) :=
  if containsRequiredKeywords .lm2002 ks then ks
  else
    let ks := if (mapLookup ks "TEST").isSome then ks
      else mapInsert ks "TEST" "unknown"
    let ks := if (mapLookup ks "TESTLAB").isSome then ks
      else mapInsert ks "TESTLAB" "unknown"
    let ks := if (mapLookup ks "ISSUEDATE").isSome then ks
      else mapInsert ks "ISSUEDATE" "unknown"
    let ks := if (mapLookup ks "MANUFAC").isSome then ks
      else mapInsert ks "MANUFAC" "unknown"
    ks

/-- One iteration of the relocation loop of `Upgrade` (`ies.go:434-443`):
a keyword not allowed under the new revision is deleted and re-added under
`"_" ++ keyword` (or `ISSUEDATE` for a legacy `DATE`). -/
def relocateStep (acc : List (String × String)) (e : String × String) :
    List (String × String) :=
  if !(isKeywordAllowed .lm2002 e.1) then
    let acc' := mapErase acc e.1
    if e.1 = "DATE" then mapInsert acc' "ISSUEDATE" e.2
    else mapInsert acc' ("_" ++ e.1) e.2
  else acc

/-- The relocation loop of `Upgrade`: Go ranges over the map while mutating
it (iteration order unspecified, entries added during iteration may or may
not be visited); the embedding iterates the entries present when the loop
starts, in list order. -/
def relocateKeywords (ks : List (String × String)) : List (String × String) :=
  ks.foldl relocateStep ks

/-- `(*IES).Upgrade` (`ies.go:411-446`): validate, re-tag as LM-63-2002,
synthesize missing required keywords, relocate disallowed keywords. -/
def Upgrade (i : IES) : Except String IES :=
  match Validate i true with
  | (false, msg) => .error msg
  | (true, _) =>
    .ok { i with
            Format := IESFormat.lm2002,
            Keywords :=
              relocateKeywords (fixRequiredKeywords i.Keywords) }

/-! ### Line classification (`ies.go:34-38`, `694-705`)

The three anchored regexes are implemented directly:
`keywordRegex = ^\[(_*\w*)\]\s+(.*)$` (the group `_*\w*` accepts exactly the
`\w`-runs, and since `]` is not a word character the greedy run must end at
the closing bracket), `keywordExtraRegex = ^\s+(.*)$`, and
`tiltRegex = ^TILT\s*=\s*(.*)$` (the greedy `\s*` must end at the `=`). -/

/-- `keywordRegex` match: `some (keyword, value)` for submatches 1 and 2. -/
def matchKeywordLine (line : String) : Option (String × String) :=
  match line.data with
  | '[' :: rest =>
    let kw := rest.takeWhile isWordChar
    match rest.drop kw.length with
    | ']' :: rest2 =>
      match rest2 with
      | c :: _ =>
        if isSpaceREChar c then
          some (String.mk kw, String.mk (rest2.dropWhile isSpaceREChar))
        else none
      | [] => none
    | _ => none
  | _ => none

/-- `keywordExtraRegex` match: `some value` for submatch 1. -/
def matchKeywordExtraLine (line : String) : Option String :=
  match line.data with
  | c :: _ =>
    if isSpaceREChar c then some (String.mk (line.data.dropWhile isSpaceREChar))
    else none
  | [] => none

/-- `tiltRegex` match: `some value` for submatch 1. -/
def matchTiltLine (line : String) : Option String :=
  match line.data with
  | 'T' :: 'I' :: 'L' :: 'T' :: rest =>
    match rest.dropWhile isSpaceREChar with
    | '=' :: rest2 => some (String.mk (rest2.dropWhile isSpaceREChar))
    | _ => none
  | _ => none

def isKeywordLine (line : String) : Bool := (matchKeywordLine line).isSome

def isKeywordExtraLine (line : String) : Bool :=
  (matchKeywordExtraLine line).isSome

def isTiltLine (line : String) : Bool := (matchTiltLine line).isSome

/-! ### Keyword-section state machine (`ies.go:100-129`, `707-780`) -/

/-- The internal parser fields of the Go `IES` struct
(`insideBlock`, `lastKeyword`) together with the keyword map being built. -/
structure ParseState where
  keywords : List (String × String) := []
  lastKeyword : String := ""
  insideBlock : Bool := false
deriving DecidableEq, Repr

/-- `(*IES).checkKeywordBlock` (`ies.go:765-780`); the Go method mutates
`insideBlock` and returns a `bool`, modelled as `none` on failure and
`some newInsideBlock` on success. -/
def checkKeywordBlock (insideBlock : Bool) (keyword : String) : Option Bool :=
  if keyword = "BLOCK" then
    if insideBlock then none else some true
  else if keyword = "ENDBLOCK" then
    if !insideBlock then none else some false
  else some insideBlock

/-- `(*IES).parseKeywordLine` (`ies.go:707-734`). Only called on lines for
which `isKeywordLine` holds, so the non-matching branch is unreachable from
the loop. -/
def parseKeywordLine (fmt : IESFormat) (st : ParseState) (line : String) :
    Except String ParseState :=
  match matchKeywordLine line with
  | none => .error "not a keyword line"
  | some (keyword, value) =>
    if !(isKeywordAllowed fmt keyword) then
      .error ("keyword " ++ keyword ++ " is not allowed for standard " ++
        formatName fmt)
    else
      match checkKeywordBlock st.insideBlock keyword with
      | none => .error "unexpected block/endblock keyword"
      | some insideBlock =>
        if keyword = "MORE" then
          if st.keywords.length = 0 || st.lastKeyword = "" then
            .error "keyword MORE occured before any other keyword"
          else
            .ok { st with
                    insideBlock := insideBlock,
                    keywords :=
                      mapAppendGo st.keywords st.lastKeyword ("\n" ++ value) }
        else
          .ok { keywords := mapInsert st.keywords keyword value,
                lastKeyword := keyword,
                insideBlock := insideBlock }

/-- `(*IES).parseKeywordExtraLine` (`ies.go:736-747`). -/
def parseKeywordExtraLine (st : ParseState) (line : String) :
    Except String ParseState :=
  match matchKeywordExtraLine line with
  | none => .error "not a keyword extra line"
  | some value =>
    if st.keywords.length = 0 || st.lastKeyword = "" then
      .error "extra keyword line occured before any other keyword"
    else
      .ok { st with
              keywords := mapAppendGo st.keywords st.lastKeyword ("\n" ++ value) }

/-- `(*IES).parseTiltLine` (`ies.go:749-763`); the Go method also sets
`Tilt = FILE` before returning the error, unobservable since `NewIES`
aborts. -/
def parseTiltLine (line : String) : Except String IESTilt :=
  match matchTiltLine line with
  | none => .error "not a tilt line"
  | some value =>
    if value = "INCLUDE" then .ok .tiltInclude
    else if value = "NONE" then .ok .tiltNone
    else .error "TILT specification from file is not supported"

/-- `validateStringFromLine` (`filereader.go:11-26`): reads one line from the
scanner, trims it, enforces the length budget in strict mode and only warns
in lenient mode. Result: the trimmed line, whether the warning branch was
taken (the `log.Printf` call), and the rest of the input. -/
def validateStringFromLine (lines : List String) (maxLength : Nat)
    (strict : Bool) : Except String (String × Bool × List String) :=
  match lines with
  | [] => .error "unexpected EOF"
  | l :: rest =>
    let cleanLine := trimGo l
    if goLen cleanLine > maxLength && strict then
      .error ("line exceeds maximum allowed length: " ++ cleanLine)
    else
      .ok (cleanLine, goLen cleanLine > maxLength && !strict, rest)

/-- `(*IES).fetchValidLineFromFile` (`ies.go:782-798`): reads one untrimmed
line, failing in strict mode when it exceeds the data-line budget of the
active format. -/
def fetchValidLineFromFile (fmt : IESFormat) (strictParsing : Bool)
    (lines : List String) : Except String (String × List String) :=
  match lines with
  | [] => .error "unexpected EOF"
  | l :: rest =>
    if goLen l > maxDataLineLength fmt && strictParsing then
      .error ("line exceeds maximum allowed length: " ++ l)
    else .ok (l, rest)

/-- The keyword/tilt loop of `NewIES` (`ies.go:100-129`): classify the
current line as keyword / tilt / continuation, update the state, and fetch
the next line (the source fetches once more even after the tilt line, so a
successful exit returns that prefetched line together with the remaining
input). The fetch inlines `fetchValidLineFromFile`. -/
def keywordLoop (fmt : IESFormat) (strict : Bool) :
    ParseState → String → List String →
    Except String (ParseState × IESTilt × String × List String)
  | st, line, rest =>
    if isKeywordLine line then
      match parseKeywordLine fmt st line with
      | .error e => .error e
      | .ok st' =>
        match rest with
        | [] => .error "unexpected EOF"
        | l :: ls =>
          if goLen l > maxDataLineLength fmt && strict then
            .error ("line exceeds maximum allowed length: " ++ l)
          else keywordLoop fmt strict st' l ls
    else if isTiltLine line then
      if !(containsRequiredKeywords fmt st.keywords) then
        .error "required keywords are missing"
      else
        match parseTiltLine line with
        | .error e => .error e
        | .ok tilt =>
          match rest with
          | [] => .error "unexpected EOF"
          | l :: ls =>
            if goLen l > maxDataLineLength fmt && strict then
              .error ("line exceeds maximum allowed length: " ++ l)
            else .ok (st, tilt, l, ls)
    else if isKeywordExtraLine line then
      match parseKeywordExtraLine st line with
      | .error e => .error e
      | .ok st' =>
        match rest with
        | [] => .error "unexpected EOF"
        | l :: ls =>
          if goLen l > maxDataLineLength fmt && strict then
            .error ("line exceeds maximum allowed length: " ++ l)
          else keywordLoop fmt strict st' l ls
    else .error ("expected keyword or tilt line, not " ++ line)

/-! ### Word collection (`ies.go:828-851`) -/

/-- `bufio.ScanWords` over a string: the maximal runs of
non-`unicode.IsSpace` characters. -/
def splitWordsAux : List Char → List Char → List String
  | [], acc => if acc.isEmpty then [] else [String.mk acc.reverse]
  | c :: cs, acc =>
    if isGoSpace c then
      if acc.isEmpty then splitWordsAux cs []
      else String.mk acc.reverse :: splitWordsAux cs []
    else splitWordsAux cs (c :: acc)

/-- The words of one physical line as the inner loop of
`getWordListFromInput` sees them: the line is `strings.TrimSpace`d, then
split by `bufio.ScanWords`. -/
def splitWordsGo (s : String) : List String := splitWordsAux (trimGo s).data []

/-- Outcome of `getWordListFromInput`: a normal return, the
`unexpected EOF` error, or the Go runtime panic raised by the unchecked
`list[processed]` write. -/
inductive WordsResult where
  | ok (words : List String)
  | eofError
  | panicOOB
deriving DecidableEq, Repr

/-- The inner word loop of `getWordListFromInput` (`ies.go:834-837`):
`list[processed] = strings.TrimSpace(word); processed++` for each word of
the current line. The write panics (`none`) exactly when
`processed ≥ size = len(list)`. `acc` is the written prefix of `list`. -/
def writeWords (size : Nat) : Nat → List String → List String →
    Option (Nat × List String)
  | processed, acc, [] => some (processed, acc)
  | processed, acc, w :: ws =>
    if processed < size then
      writeWords size (processed + 1) (acc ++ [trimGo w]) ws
    else none

/-- The outer loop of `getWordListFromInput` (`ies.go:831-848`): while
`processed < size`, scan the current line's words, then — when more tokens
are needed or `lastScan` is unset — advance the scanner (EOF is an error). -/
def getWordListGo (size : Nat) (lastScan : Bool) :
    Nat → List String → String → List String → WordsResult
  | processed, acc, current, rest =>
    if processed < size then
      match writeWords size processed acc (splitWordsGo current) with
      | none => .panicOOB
      | some (processed', acc') =>
        if processed' < size || !lastScan then
          match rest with
          | [] => .eofError
          | l :: ls => getWordListGo size lastScan processed' acc' l ls
        else .ok acc'
    else .ok acc

/-- `getWordListFromInput` (`ies.go:828-851`): entered with the scanner's
current line already fetched, `processed = 0` and the output list empty. -/
def getWordListFromInput (size : Nat) (lastScan : Bool) (current : String)
    (rest : List String) : WordsResult :=
  getWordListGo size lastScan 0 [] current rest

/-! ## Theorems -/

/-! Helper lemmas about the association-list map model. -/

lemma mapLookup_erase (m : List (String × String)) (k k' : String) :
    mapLookup (mapErase m k) k' = if k' = k then none else mapLookup m k' := by
  induction m with
  | nil =>
    simp only [mapErase, mapLookup]
    split <;> rfl
  | cons e t ih =>
    obtain ⟨a, b⟩ := e
    by_cases hak : a = k
    · subst hak
      by_cases hk : k' = a
      · subst hk
        simp [mapErase, mapLookup, ih]
      · simp [mapErase, mapLookup, ih, hk, Ne.symm hk]
    · by_cases hka : a = k'
      · subst hka
        simp [mapErase, mapLookup, hak]
      · simp [mapErase, mapLookup, hak, hka, ih]

lemma mapLookup_insert_self (m : List (String × String)) (k v : String) :
    mapLookup (mapInsert m k v) k = some v := by
  simp [mapInsert, mapLookup]

lemma mapLookup_insert_ne (m : List (String × String)) (k v k' : String)
    (h : k' ≠ k) : mapLookup (mapInsert m k v) k' = mapLookup m k' := by
  simp [mapInsert, mapLookup, Ne.symm h, mapLookup_erase, h]

lemma mapLookup_ne_nil {m : List (String × String)} {k v : String}
    (h : mapLookup m k = some v) : m ≠ [] := by
  intro he; subst he; simp [mapLookup] at h

/-- A concrete stand-in for `strconv.ParseFloat` on the sample tokens used in
witnesses: injective on the tokens it accepts. -/
def pfSample (s : String) : Option ℚ :=
  if s = "1.0" then some 1
  else if s = "2.0" then some 2
  else if s = "3.0" then some 3
  else none

/-- **C1.** The spec's published line-11 layout has ballast factor, future
use, and input watts as three independently positioned fields, so a parsed
model's `BallastFactor` and `FutureUse` must come from distinct input
tokens. The code (`ies.go:201-204`) instead parses `words[1]` into both
`BallastFactor` and `FutureUse` and never reads `words[0]`: whenever the
line-11 parse succeeds, `BallastFactor = FutureUse`, and the result is
unchanged when the first collected token is replaced by anything else. This
confirms the code bug the claim (and spec §9) flags. -/
theorem iesLine11_reads_same_token_twice (pf : String → Option ℚ)
    (a b w1 w2 : String) (r : ℚ × ℚ × ℚ)
    (h : parseLine11 pf [a, w1, w2] = some r) :
    r.1 = r.2.1 ∧ parseLine11 pf [b, w1, w2] = some r := by
  simp only [parseLine11, List.get?, Option.bind_eq_bind, Option.bind_eq_some] at h ⊢
  obtain ⟨x1, hx1, y1, hy1, x2, hx2, y2, hy2, x3, hx3, y3, hy3, hr⟩ := h
  cases hx1; cases hx2; cases hx3
  rw [hy1] at hy2
  cases hy2
  refine ⟨?_, ?_⟩
  · cases hr; rfl
  · exact ⟨w1, rfl, y1, hy1, w1, rfl, y1, hy1, w2, rfl, y3, hy3, hr⟩

/-- Witness for C1 at the failing input `1.0 2.0 3.0`: the parse succeeds
with `BallastFactor = FutureUse = 2.0` (both from the second token), and the
first token is ignored (replacing it by `9.9` gives the same model). -/
theorem iesLine11_reads_same_token_twice_witness :
    (2 : ℚ) = 2 ∧ parseLine11 pfSample ["9.9", "2.0", "3.0"] = some (2, 2, 3) :=
  iesLine11_reads_same_token_twice pfSample "1.0" "9.9" "2.0" "3.0" (2, 2, 3)
    (by decide)

/-- **C2.** The claim (and spec §4.4) say `ConvertIESToEulumdat` must report
a "not supported" error for every input. The code (`conversion.go:38-40`) is
`return nil, nil`: for every IES model it returns a `nil` error — a success
outcome — together with a `nil` model, contradicting the claim. This
confirms the code bug: the error component is always `none`. -/
theorem convertIESToEulumdat_returns_no_error (ies : IES) :
    (ConvertIESToEulumdat ies).2 = none ∧ (ConvertIESToEulumdat ies).1 = none :=
  ⟨rfl, rfl⟩

/-- Witness for C2 at the zero-valued IES model. -/
theorem convertIESToEulumdat_returns_no_error_witness :
    (ConvertIESToEulumdat {}).2 = none ∧ (ConvertIESToEulumdat {}).1 = none :=
  convertIESToEulumdat_returns_no_error {}

/-- **C3.** For every symmetry indicator in `{0,1,2,3,4}` and every positive
`Mc`, the derived plane bounds satisfy `mc1 ≤ mc2` and
`mc2 - mc1 + 1 = mc`. (The symmetry table is modelled from spec §4.2 since
the EULUMDAT codec source is not under `src/`.) -/
theorem symmetryRange_bounds (symmetry Mc : Nat) (hs : symmetry ≤ 4)
    (hMc : 0 < Mc) :
    ∃ mc1 mc2 mc, symmetryRange symmetry Mc = some (mc1, mc2, mc) ∧
      mc1 ≤ mc2 ∧ mc2 - mc1 + 1 = mc := by
  interval_cases symmetry <;>
    exact ⟨_, _, _, rfl, by omega, by omega⟩

/-- Witness for C3 at symmetry 3, `Mc = 6`:
`mc1 = 3·6/4+1 = 5`, `mc2 = 5 + 6/2 = 8`, `mc = 6/2+1 = 4`, and
`8 - 5 + 1 = 4`. -/
theorem symmetryRange_bounds_witness :
    ∃ mc1 mc2 mc, symmetryRange 3 6 = some (mc1, mc2, mc) ∧
      mc1 ≤ mc2 ∧ mc2 - mc1 + 1 = mc :=
  symmetryRange_bounds 3 6 (by decide) (by decide)

/-- **C10.** `ConvertEulumdatToIES` reads `TypeLamps[0]`, `NumberLamps[0]`,
`TotalLuminousFluxLamps[0]` and `BallastWatts[0]` without checking the
assembly-set count: for every EULUMDAT model whose lamp-assembly arrays are
empty, the conversion hits an out-of-bounds index (a Go runtime panic,
modelled as `none`) instead of returning an error value. -/
theorem convertEulumdatToIES_empty_assembly_out_of_bounds (e : Eulumdat)
    (h : e.TypeLamps = []) :
    ConvertEulumdatToIES e = none := by
  simp [ConvertEulumdatToIES, h]

/-- Witness for C10: the all-empty EULUMDAT model hits the out-of-bounds
outcome. -/
theorem convertEulumdatToIES_empty_assembly_out_of_bounds_witness :
    ConvertEulumdatToIES {} = none :=
  convertEulumdatToIES_empty_assembly_out_of_bounds {} rfl

/-- `MORE` is permitted under every revision's allow-list. -/
lemma isKeywordAllowed_MORE (fmt : IESFormat) :
    isKeywordAllowed fmt "MORE" = true := by
  cases fmt <;> decide

/-- **C4.** If the tilt line is reached under a 2002 format while any of the
required keywords `TEST`, `TESTLAB`, `ISSUEDATE`, `MANUFAC` is absent, the
keyword loop fails with the required-keywords error before the tilt value is
interpreted (the error is independent of the tilt line's value and of the
remaining input); the same keyword map passes the required-keyword check
under 1995, which has no required keywords. -/
theorem required_keyword_gate_2002_vs_1995 (st : ParseState) (line : String)
    (rest : List String) (strict : Bool)
    (hkw : isKeywordLine line = false) (ht : isTiltLine line = true)
    (hmiss : mapLookup st.keywords "TEST" = none ∨
      mapLookup st.keywords "TESTLAB" = none ∨
      mapLookup st.keywords "ISSUEDATE" = none ∨
      mapLookup st.keywords "MANUFAC" = none) :
    keywordLoop .lm2002 strict st line rest =
      .error "required keywords are missing"
    ∧ containsRequiredKeywords .lm1995 st.keywords = true := by
  have hreq : containsRequiredKeywords .lm2002 st.keywords = false := by
    simp only [containsRequiredKeywords, checkIesna02RequiredKeywords,
      List.all_cons, List.all_nil, Bool.and_eq_false_iff]
    rcases hmiss with h | h | h | h <;> simp [h]
  refine ⟨?_, rfl⟩
  rw [keywordLoop]
  simp [hkw, ht, hreq]

/-- Witness for C4: keyword map with `ISSUEDATE` absent, tilt line
`TILT=NONE`. -/
theorem required_keyword_gate_2002_vs_1995_witness :
    keywordLoop .lm2002 false
      ⟨[("TEST", "a"), ("TESTLAB", "b"), ("MANUFAC", "c")], "MANUFAC", false⟩
      "TILT=NONE" ["0"] = .error "required keywords are missing"
    ∧ containsRequiredKeywords .lm1995
        [("TEST", "a"), ("TESTLAB", "b"), ("MANUFAC", "c")] = true :=
  required_keyword_gate_2002_vs_1995
    ⟨[("TEST", "a"), ("TESTLAB", "b"), ("MANUFAC", "c")], "MANUFAC", false⟩
    "TILT=NONE" ["0"] false (by decide) (by decide)
    (Or.inr (Or.inr (Or.inl (by decide))))

/-- **C5.** In a parse state where `TEST` was just set to `"abc"` (so the
last keyword is `TEST`), a `[MORE] value` line appends `"\n" ++ value` to
`TEST`'s entry: the updated map binds `TEST` to `"abc" ++ ("\n" ++ value)`,
no key is created or removed, and the last keyword stays `TEST`; a `MORE`
line arriving before any keyword is an error. -/
theorem more_line_appends_to_last_keyword (fmt : IESFormat)
    (ks : List (String × String)) (line v : String)
    (hline : matchKeywordLine line = some ("MORE", v))
    (hTest : mapLookup ks "TEST" = some "abc") :
    (∃ ks', parseKeywordLine fmt ⟨ks, "TEST", false⟩ line =
        .ok ⟨ks', "TEST", false⟩
      ∧ mapLookup ks' "TEST" = some ("abc" ++ ("\n" ++ v))
      ∧ ∀ k, (mapLookup ks' k).isSome = (mapLookup ks k).isSome)
    ∧ parseKeywordLine fmt ⟨[], "", false⟩ line =
        .error "keyword MORE occured before any other keyword" := by
  have hne : ks ≠ [] := mapLookup_ne_nil hTest
  have hlen : ks.length ≠ 0 := by
    simpa [List.length_eq_zero] using hne
  constructor
  · refine ⟨mapInsert ks "TEST" ("abc" ++ ("\n" ++ v)), ?_, ?_, ?_⟩
    · rw [parseKeywordLine, hline]
      simp [isKeywordAllowed_MORE, checkKeywordBlock, hlen, mapAppendGo, hTest]
    · exact mapLookup_insert_self ks "TEST" ("abc" ++ ("\n" ++ v))
    · intro k
      by_cases hk : k = "TEST"
      · subst hk
        simp [mapLookup_insert_self, hTest]
      · rw [mapLookup_insert_ne _ _ _ _ hk]
  · rw [parseKeywordLine, hline]
    simp [isKeywordAllowed_MORE, checkKeywordBlock]

/-- Witness for C5 at the concrete line `[MORE] def` and the one-entry map
`TEST ↦ abc`. -/
theorem more_line_appends_to_last_keyword_witness :
    (∃ ks', parseKeywordLine .lm2002 ⟨[("TEST", "abc")], "TEST", false⟩
        "[MORE] def" = .ok ⟨ks', "TEST", false⟩
      ∧ mapLookup ks' "TEST" = some ("abc" ++ ("\n" ++ "def"))
      ∧ ∀ k, (mapLookup ks' k).isSome =
          (mapLookup [("TEST", "abc")] k).isSome)
    ∧ parseKeywordLine .lm2002 ⟨[], "", false⟩ "[MORE] def" =
        .error "keyword MORE occured before any other keyword" :=
  more_line_appends_to_last_keyword .lm2002 [("TEST", "abc")] "[MORE] def"
    "def" (by decide) (by decide)

/-- **C6.** An `ENDBLOCK` keyword while not inside a block is an error, a
`BLOCK` keyword while already inside a block is an error, and a `BLOCK`
later matched by an `ENDBLOCK` succeeds with the keyword lines in between
(and the `BLOCK`/`ENDBLOCK` lines themselves) recorded in the keyword map. -/
theorem block_endblock_nesting :
    (∀ (st : ParseState) (line v : String), st.insideBlock = false →
      matchKeywordLine line = some ("ENDBLOCK", v) →
      parseKeywordLine .lm1995 st line =
        .error "unexpected block/endblock keyword")
    ∧ (∀ (st : ParseState) (line v : String), st.insideBlock = true →
      matchKeywordLine line = some ("BLOCK", v) →
      parseKeywordLine .lm1995 st line =
        .error "unexpected block/endblock keyword")
    ∧ keywordLoop .lm1995 false ⟨[], "", false⟩ "[BLOCK] x"
        ["[TEST] y", "[ENDBLOCK] z", "TILT=NONE", "0"] =
      .ok (⟨[("ENDBLOCK", "z"), ("TEST", "y"), ("BLOCK", "x")],
        "ENDBLOCK", false⟩, .tiltNone, "0", []) := by
  have hend : isKeywordAllowed .lm1995 "ENDBLOCK" = true := by decide
  have hblk : isKeywordAllowed .lm1995 "BLOCK" = true := by decide
  refine ⟨?_, ?_, by rfl⟩
  · intro st line v hin hline
    rw [parseKeywordLine, hline]
    simp [hend, checkKeywordBlock, hin]
  · intro st line v hin hline
    rw [parseKeywordLine, hline]
    simp [hblk, checkKeywordBlock, hin]

/-- Witness for C6's hypotheses: the unmatched-`ENDBLOCK` error and the
`BLOCK`-inside-a-block error at concrete lines and states. -/
theorem block_endblock_nesting_witness :
    parseKeywordLine .lm1995 ⟨[("TEST", "y")], "TEST", false⟩ "[ENDBLOCK] q" =
      .error "unexpected block/endblock keyword"
    ∧ parseKeywordLine .lm1995 ⟨[("BLOCK", "x")], "BLOCK", true⟩ "[BLOCK] r" =
      .error "unexpected block/endblock keyword" :=
  ⟨block_endblock_nesting.1 ⟨[("TEST", "y")], "TEST", false⟩ "[ENDBLOCK] q"
      "q" rfl (by decide),
    block_endblock_nesting.2.1 ⟨[("BLOCK", "x")], "BLOCK", true⟩ "[BLOCK] r"
      "r" rfl (by decide)⟩

/-- **C7.** A line exceeding the active length budget by one character is
rejected in strict mode with the length-violation error and accepted in
lenient mode (with the warning branch taken), both for the trimming reader
`validateStringFromLine` and for the untrimmed `fetchValidLineFromFile`
(whose budget is the active format's data-line budget). -/
theorem length_budget_strict_vs_lenient :
    (∀ (l : String) (rest : List String) (maxLength : Nat),
      goLen (trimGo l) = maxLength + 1 →
      validateStringFromLine (l :: rest) maxLength true =
        .error ("line exceeds maximum allowed length: " ++ trimGo l)
      ∧ validateStringFromLine (l :: rest) maxLength false =
        .ok (trimGo l, true, rest))
    ∧ (∀ (fmt : IESFormat) (l : String) (rest : List String),
      goLen l = maxDataLineLength fmt + 1 →
      fetchValidLineFromFile fmt true (l :: rest) =
        .error ("line exceeds maximum allowed length: " ++ l)
      ∧ fetchValidLineFromFile fmt false (l :: rest) = .ok (l, rest)) := by
  constructor
  · intro l rest maxLength h
    have hgt : goLen (trimGo l) > maxLength := by omega
    constructor <;> simp [validateStringFromLine, hgt]
  · intro fmt l rest h
    have hgt : goLen l > maxDataLineLength fmt := by omega
    constructor <;> simp [fetchValidLineFromFile, hgt]

set_option maxRecDepth 4000 in
/-- Witness for C7: `" abcd "` trims to 4 bytes against a 3-byte budget, and
a 131-byte line is one over the 1995 data budget of 130. -/
theorem length_budget_strict_vs_lenient_witness :
    (validateStringFromLine [" abcd "] 3 true =
        .error ("line exceeds maximum allowed length: " ++ trimGo " abcd ")
      ∧ validateStringFromLine [" abcd "] 3 false = .ok (trimGo " abcd ", true, []))
    ∧ (fetchValidLineFromFile .lm1995 true [String.mk (List.replicate 131 'a')] =
        .error ("line exceeds maximum allowed length: " ++
          String.mk (List.replicate 131 'a'))
      ∧ fetchValidLineFromFile .lm1995 false [String.mk (List.replicate 131 'a')] =
        .ok (String.mk (List.replicate 131 'a'), [])) :=
  ⟨length_budget_strict_vs_lenient.1 " abcd " [] 3 (by decide),
    length_budget_strict_vs_lenient.2 .lm1995 (String.mk (List.replicate 131 'a'))
      [] (by decide)⟩

lemma writeWords_bounds :
    ∀ (ws : List String) (size processed : Nat) (acc : List String)
      (p' : Nat) (acc' : List String),
      writeWords size processed acc ws = some (p', acc') →
      processed ≤ size → acc.length = processed →
      p' ≤ size ∧ acc'.length = p' := by
  intro ws
  induction ws with
  | nil =>
    intro size processed acc p' acc' h hle hlen
    simp only [writeWords, Option.some.injEq, Prod.mk.injEq] at h
    obtain ⟨h1, h2⟩ := h
    subst h1; subst h2
    exact ⟨hle, hlen⟩
  | cons w ws ih =>
    intro size processed acc p' acc' h hle hlen
    rw [writeWords] at h
    by_cases hp : processed < size
    · rw [if_pos hp] at h
      exact ih size (processed + 1) (acc ++ [trimGo w]) p' acc' h hp
        (by simp [hlen])
    · rw [if_neg hp] at h
      exact absurd h (by simp)

lemma getWordListGo_ok_length (size : Nat) (lastScan : Bool) :
    ∀ (rest : List String) (processed : Nat) (acc : List String)
      (current : String) (ws : List String),
      acc.length = processed → processed ≤ size →
      getWordListGo size lastScan processed acc current rest = .ok ws →
      ws.length = size := by
  intro rest
  induction rest with
  | nil =>
    intro processed acc current ws hlen hle h
    rw [getWordListGo] at h
    by_cases hp : processed < size
    · rw [if_pos hp] at h
      rcases hw : writeWords size processed acc (splitWordsGo current) with
        _ | ⟨p', acc'⟩ <;> rw [hw] at h <;> dsimp only at h
      · exact absurd h (by simp)
      · obtain ⟨hp'le, hlen'⟩ :=
          writeWords_bounds (splitWordsGo current) size processed acc p' acc'
            hw (Nat.le_of_lt hp) hlen
        by_cases hc : (p' < size || !lastScan) = true
        · rw [if_pos hc] at h
          exact absurd h (by simp)
        · rw [if_neg hc] at h
          simp only [WordsResult.ok.injEq] at h
          subst h
          simp only [Bool.or_eq_true, not_or, Bool.not_eq_true,
            decide_eq_true_eq] at hc
          omega
    · rw [if_neg hp] at h
      simp only [WordsResult.ok.injEq] at h
      subst h
      omega
  | cons l ls ih =>
    intro processed acc current ws hlen hle h
    rw [getWordListGo] at h
    by_cases hp : processed < size
    · rw [if_pos hp] at h
      rcases hw : writeWords size processed acc (splitWordsGo current) with
        _ | ⟨p', acc'⟩ <;> rw [hw] at h <;> dsimp only at h
      · exact absurd h (by simp)
      · obtain ⟨hp'le, hlen'⟩ :=
          writeWords_bounds (splitWordsGo current) size processed acc p' acc'
            hw (Nat.le_of_lt hp) hlen
        by_cases hc : (p' < size || !lastScan) = true
        · rw [if_pos hc] at h
          exact ih p' acc' l ws hlen' hp'le h
        · rw [if_neg hc] at h
          simp only [WordsResult.ok.injEq] at h
          subst h
          simp only [Bool.or_eq_true, not_or, Bool.not_eq_true,
            decide_eq_true_eq] at hc
          omega
    · rw [if_neg hp] at h
      simp only [WordsResult.ok.injEq] at h
      subst h
      omega

/-- **C9 counterexample.** The claim says `getWordListFromInput` never
accesses its output list out of bounds. It does: with a requested count of
1 and the current physical line `"a b"`, the second word is written at
index 1 of a length-1 list — the embedded routine reaches the
out-of-bounds outcome (a Go runtime panic), not a token list or an error. -/
theorem getWordList_out_of_bounds_counterexample :
    getWordListFromInput 1 false "a b" [] = .panicOOB := by rfl

/-- **C9 amended.** The inner word loop writes `list[processed]` without
checking `processed < size`, so when a physical line contains more
whitespace-delimited tokens than remain to be collected the routine aborts
with an out-of-bounds index (Go runtime panic) — it is not total; in every
run that does return normally, the returned list has exactly the requested
number of entries. -/
theorem getWordList_ok_returns_exactly_size (size : Nat) (lastScan : Bool)
    (current : String) (rest : List String) (ws : List String)
    (h : getWordListFromInput size lastScan current rest = .ok ws) :
    ws.length = size :=
  getWordListGo_ok_length size lastScan rest 0 [] current ws rfl
    (Nat.zero_le size) h

/-- Witness for C9's amended theorem: collecting 2 tokens from the line
`"1 2"` (with one further line available for the mandatory trailing read)
succeeds with exactly 2 tokens. -/
theorem getWordList_ok_returns_exactly_size_witness :
    getWordListFromInput 2 false "1 2" ["x"] = .ok ["1", "2"] ∧
      (["1", "2"] : List String).length = 2 :=
  ⟨by rfl, getWordList_ok_returns_exactly_size 2 false "1 2" ["x"] ["1", "2"]
    (by rfl)⟩

/-! C8 toolkit: lemmas about the association-list map, `fixRequiredKeywords`
and the relocation fold. -/

lemma mapLookup_eq_none_iff (m : List (String × String)) (k : String) :
    mapLookup m k = none ↔ k ∉ m.map Prod.fst := by
  induction m with
  | nil => simp [mapLookup]
  | cons e t ih =>
    obtain ⟨a, b⟩ := e
    by_cases hak : a = k
    · subst hak; simp [mapLookup]
    · simp [mapLookup, hak, ih, Ne.symm hak]

lemma mapLookup_isSome_mem {m : List (String × String)} {k : String}
    (h : (mapLookup m k).isSome = true) : k ∈ m.map Prod.fst := by
  by_contra hmem
  rw [← mapLookup_eq_none_iff] at hmem
  rw [hmem] at h
  simp at h

lemma mem_mapErase {e : String × String} {m : List (String × String)}
    {k : String} (h : e ∈ mapErase m k) : e ∈ m := by
  induction m with
  | nil => simp [mapErase] at h
  | cons f t ih =>
    obtain ⟨a, b⟩ := f
    by_cases hak : a = k
    · subst hak
      simp only [mapErase, if_pos rfl] at h
      exact List.mem_cons_of_mem _ (ih h)
    · simp only [mapErase, if_neg hak, List.mem_cons] at h
      rcases h with h | h
      · exact h ▸ List.mem_cons_self _ _
      · exact List.mem_cons_of_mem _ (ih h)

lemma mem_mapInsert {e : String × String} {m : List (String × String)}
    {k v : String} (h : e ∈ mapInsert m k v) : e ∈ m ∨ e.1 = k := by
  simp only [mapInsert, List.mem_cons] at h
  rcases h with h | h
  · right; rw [h]
  · left; exact mem_mapErase h

lemma keys_mapErase_sublist (m : List (String × String)) (k : String) :
    ((mapErase m k).map Prod.fst).Sublist (m.map Prod.fst) := by
  induction m with
  | nil => simp [mapErase]
  | cons f t ih =>
    obtain ⟨a, b⟩ := f
    by_cases hak : a = k
    · subst hak
      simp only [mapErase, if_pos rfl, List.map_cons]
      exact ih.cons _
    · simp only [mapErase, if_neg hak, List.map_cons]
      exact ih.cons₂ _

lemma nodup_keys_mapInsert {m : List (String × String)} (k v : String)
    (h : (m.map Prod.fst).Nodup) :
    ((mapInsert m k v).map Prod.fst).Nodup := by
  simp only [mapInsert, List.map_cons, List.nodup_cons]
  constructor
  · have hnone : mapLookup (mapErase m k) k = none := by
      rw [mapLookup_erase]; simp
    exact (mapLookup_eq_none_iff _ _).1 hnone
  · exact (keys_mapErase_sublist m k).nodup h

lemma condInsert_isSome_self (m : List (String × String)) (k v : String) :
    (mapLookup (if (mapLookup m k).isSome then m else mapInsert m k v)
      k).isSome = true := by
  by_cases h : (mapLookup m k).isSome <;> simp [h, mapLookup_insert_self]

lemma condInsert_isSome_mono (m : List (String × String)) (k v k' : String)
    (h : (mapLookup m k').isSome = true) :
    (mapLookup (if (mapLookup m k).isSome then m else mapInsert m k v)
      k').isSome = true := by
  by_cases hc : (mapLookup m k).isSome
  · simpa [hc]
  · simp only [hc, if_false, Bool.false_eq_true]
    by_cases hk : k' = k
    · subst hk; simp [mapLookup_insert_self]
    · rw [mapLookup_insert_ne _ _ _ _ hk]; exact h

lemma condInsert_lookup_ne (m : List (String × String)) (k v k' : String)
    (h : k' ≠ k) :
    mapLookup (if (mapLookup m k).isSome then m else mapInsert m k v) k' =
      mapLookup m k' := by
  by_cases hc : (mapLookup m k).isSome
  · simp [hc]
  · simp only [hc, if_false, Bool.false_eq_true]
    exact mapLookup_insert_ne _ _ _ _ h

lemma mem_condInsert {e : String × String} {m : List (String × String)}
    {k v : String}
    (h : e ∈ (if (mapLookup m k).isSome then m else mapInsert m k v)) :
    e ∈ m ∨ e.1 = k := by
  by_cases hc : (mapLookup m k).isSome
  · rw [if_pos hc] at h; exact Or.inl h
  · rw [if_neg hc] at h; exact mem_mapInsert h

lemma nodup_keys_condInsert {m : List (String × String)} (k v : String)
    (h : (m.map Prod.fst).Nodup) :
    (((if (mapLookup m k).isSome then m else mapInsert m k v)).map
      Prod.fst).Nodup := by
  by_cases hc : (mapLookup m k).isSome
  · simpa [hc]
  · rw [if_neg hc]; exact nodup_keys_mapInsert k v h

lemma contains_fixRequiredKeywords (ks : List (String × String)) :
    containsRequiredKeywords .lm2002 (fixRequiredKeywords ks) = true := by
  rw [fixRequiredKeywords]
  by_cases h : containsRequiredKeywords .lm2002 ks = true
  · rwa [if_pos h]
  · rw [if_neg h]
    simp only [containsRequiredKeywords, checkIesna02RequiredKeywords,
      List.all_cons, List.all_nil, Bool.and_true, Bool.and_eq_true]
    refine ⟨?_, ?_, ?_, ?_⟩
    · exact condInsert_isSome_mono _ _ _ _ (condInsert_isSome_mono _ _ _ _
        (condInsert_isSome_mono _ _ _ _ (condInsert_isSome_self _ _ _)))
    · exact condInsert_isSome_mono _ _ _ _ (condInsert_isSome_mono _ _ _ _
        (condInsert_isSome_self _ _ _))
    · exact condInsert_isSome_mono _ _ _ _ (condInsert_isSome_self _ _ _)
    · exact condInsert_isSome_self _ _ _

lemma mem_fixRequiredKeywords {e : String × String}
    {ks : List (String × String)} (h : e ∈ fixRequiredKeywords ks) :
    e ∈ ks ∨ e.1 = "TEST" ∨ e.1 = "TESTLAB" ∨ e.1 = "ISSUEDATE" ∨
      e.1 = "MANUFAC" := by
  rw [fixRequiredKeywords] at h
  by_cases hc : containsRequiredKeywords .lm2002 ks = true
  · rw [if_pos hc] at h; exact Or.inl h
  · rw [if_neg hc] at h
    rcases mem_condInsert h with h | h
    · rcases mem_condInsert h with h | h
      · rcases mem_condInsert h with h | h
        · rcases mem_condInsert h with h | h
          · exact Or.inl h
          · exact Or.inr (Or.inl h)
        · exact Or.inr (Or.inr (Or.inl h))
      · exact Or.inr (Or.inr (Or.inr (Or.inl h)))
    · exact Or.inr (Or.inr (Or.inr (Or.inr h)))

lemma nodup_keys_fixRequiredKeywords {ks : List (String × String)}
    (h : (ks.map Prod.fst).Nodup) :
    ((fixRequiredKeywords ks).map Prod.fst).Nodup := by
  rw [fixRequiredKeywords]
  by_cases hc : containsRequiredKeywords .lm2002 ks = true
  · rwa [if_pos hc]
  · rw [if_neg hc]
    exact nodup_keys_condInsert _ _ (nodup_keys_condInsert _ _
      (nodup_keys_condInsert _ _ (nodup_keys_condInsert _ _ h)))

lemma fixRequiredKeywords_lookup_ne (ks : List (String × String))
    (k : String) (h1 : k ≠ "TEST") (h2 : k ≠ "TESTLAB")
    (h3 : k ≠ "ISSUEDATE") (h4 : k ≠ "MANUFAC") :
    mapLookup (fixRequiredKeywords ks) k = mapLookup ks k := by
  rw [fixRequiredKeywords]
  by_cases hc : containsRequiredKeywords .lm2002 ks = true
  · rw [if_pos hc]
  · rw [if_neg hc]
    rw [condInsert_lookup_ne _ _ _ _ h4, condInsert_lookup_ne _ _ _ _ h3,
      condInsert_lookup_ne _ _ _ _ h2, condInsert_lookup_ne _ _ _ _ h1]

lemma goLen_underscore_append (s : String) : goLen ("_" ++ s) = 1 + goLen s := by
  have h : ("_" ++ s).data = '_' :: s.data := rfl
  have hu : Char.utf8Size '_' = 1 := by decide
  rw [goLen, h, List.map_cons, List.sum_cons, hu]
  rfl

lemma underscore_allowed (k : String) (hhead : k.data.head? = some '_')
    (hlen : goLen k ≤ 18) : isKeywordAllowed .lm2002 k = true := by
  rw [isKeywordAllowed]
  have hne : ¬(k = "") := by
    intro he; subst he; simp at hhead
  rw [if_neg hne, if_neg (by omega : ¬goLen k > 18),
    if_neg (by simp : ¬(IESFormat.lm2002 = IESFormat.unknown)), if_pos hhead]

lemma not_underscore_head_of_not_allowed {k : String}
    (hna : isKeywordAllowed .lm2002 k = false) (hlen : goLen k ≤ 17) :
    k.data.head? ≠ some '_' := by
  intro hh
  rw [underscore_allowed k hh (by omega)] at hna
  exact Bool.noConfusion hna

lemma underscore_append_head (s : String) :
    ("_" ++ s).data.head? = some '_' := rfl

lemma underscore_append_inj {a b : String} (h : "_" ++ a = "_" ++ b) :
    a = b := by
  have hd := congrArg String.data h
  have hdd : a.data = b.data := by simpa using hd
  cases a
  cases b
  exact congrArg String.mk (by simpa using hdd)

lemma underscore_append_ne_self (k : String) : "_" ++ k ≠ k := by
  intro h
  have := congrArg goLen h
  rw [goLen_underscore_append] at this
  omega

lemma underscore_append_ne_of_head {s t : String}
    (ht : t.data.head? ≠ some '_') : "_" ++ s ≠ t := by
  intro h
  exact ht (h ▸ underscore_append_head s)

lemma relocateStep_of_allowed {k₀ : String} (v₀ : String)
    (acc : List (String × String))
    (hall : isKeywordAllowed .lm2002 k₀ = true) :
    relocateStep acc (k₀, v₀) = acc := by
  simp [relocateStep, hall]

lemma relocateStep_of_not_allowed {k₀ : String} (v₀ : String)
    (acc : List (String × String))
    (hall : isKeywordAllowed .lm2002 k₀ = false) :
    relocateStep acc (k₀, v₀) =
      mapInsert (mapErase acc k₀)
        (if k₀ = "DATE" then "ISSUEDATE" else "_" ++ k₀) v₀ := by
  by_cases hd : k₀ = "DATE"
  · subst hd; simp [relocateStep, hall]
  · simp [relocateStep, hall, hd]

lemma reloc_keeps_allowed :
    ∀ (todo acc : List (String × String)) (r : String),
      isKeywordAllowed .lm2002 r = true → (mapLookup acc r).isSome = true →
      (mapLookup (todo.foldl relocateStep acc) r).isSome = true := by
  intro todo
  induction todo with
  | nil => intro acc r _ h; simpa using h
  | cons e rest ih =>
    intro acc r hr h
    obtain ⟨k₀, v₀⟩ := e
    rw [List.foldl_cons]
    apply ih _ r hr
    by_cases hall : isKeywordAllowed .lm2002 k₀ = true
    · rwa [relocateStep_of_allowed _ _ hall]
    · have hallf : isKeywordAllowed .lm2002 k₀ = false := by
        revert hall; cases isKeywordAllowed .lm2002 k₀ <;> simp
      have hk₀r : r ≠ k₀ := by
        intro he; subst he; rw [hr] at hallf; exact Bool.noConfusion hallf
      rw [relocateStep_of_not_allowed _ _ hallf]
      by_cases hrt : r = (if k₀ = "DATE" then "ISSUEDATE" else "_" ++ k₀)
      · rw [hrt, mapLookup_insert_self]; rfl
      · rw [mapLookup_insert_ne _ _ _ _ hrt, mapLookup_erase, if_neg hk₀r]
        exact h

lemma reloc_all_allowed :
    ∀ (todo acc : List (String × String)),
      (∀ e ∈ todo, isKeywordAllowed .lm2002 e.1 = true ∨ goLen e.1 ≤ 17) →
      (∀ k, (mapLookup acc k).isSome = true →
        isKeywordAllowed .lm2002 k = true ∨ k ∈ todo.map Prod.fst) →
      ∀ k, (mapLookup (todo.foldl relocateStep acc) k).isSome = true →
        isKeywordAllowed .lm2002 k = true := by
  intro todo
  induction todo with
  | nil =>
    intro acc _ hinv k h
    rcases hinv k (by simpa using h) with h' | h'
    · exact h'
    · simp at h'
  | cons e rest ih =>
    intro acc htodo hinv k h
    obtain ⟨k₀, v₀⟩ := e
    rw [List.foldl_cons] at h
    refine ih _ (fun e he => htodo e (List.mem_cons_of_mem _ he)) ?_ k h
    intro k' hk'
    by_cases hall : isKeywordAllowed .lm2002 k₀ = true
    · rw [relocateStep_of_allowed _ _ hall] at hk'
      rcases hinv k' hk' with h' | h'
      · exact Or.inl h'
      · rw [List.map_cons] at h'
        rcases List.mem_cons.1 h' with h'' | h''
        · exact Or.inl (h'' ▸ hall)
        · exact Or.inr h''
    · have hallf : isKeywordAllowed .lm2002 k₀ = false := by
        revert hall; cases isKeywordAllowed .lm2002 k₀ <;> simp
      have hlen17 : goLen k₀ ≤ 17 := by
        rcases htodo (k₀, v₀) (List.mem_cons_self _ _) with h' | h'
        · rw [h'] at hallf; exact Bool.noConfusion hallf
        · exact h'
      rw [relocateStep_of_not_allowed _ _ hallf] at hk'
      by_cases hkt : k' = (if k₀ = "DATE" then "ISSUEDATE" else "_" ++ k₀)
      · left
        subst hkt
        by_cases hd : k₀ = "DATE"
        · rw [if_pos hd]; decide
        · rw [if_neg hd]
          exact underscore_allowed _ (underscore_append_head k₀)
            (by rw [goLen_underscore_append]; omega)
      · rw [mapLookup_insert_ne _ _ _ _ hkt, mapLookup_erase] at hk'
        by_cases hk₀ : k' = k₀
        · rw [if_pos hk₀] at hk'; simp at hk'
        · rw [if_neg hk₀] at hk'
          rcases hinv k' hk' with h' | h'
          · exact Or.inl h'
          · rw [List.map_cons] at h'
            rcases List.mem_cons.1 h' with h'' | h''
            · exact absurd h'' hk₀
            · exact Or.inr h''

lemma reloc_preserve :
    ∀ (post acc : List (String × String)) (t : String),
      (∀ e ∈ post, isKeywordAllowed .lm2002 e.1 = true ∨
        (e.1 ≠ t ∧ ("_" ++ e.1) ≠ t ∧ ¬(e.1 = "DATE" ∧ t = "ISSUEDATE"))) →
      mapLookup (post.foldl relocateStep acc) t = mapLookup acc t := by
  intro post
  induction post with
  | nil => intro acc t _; rfl
  | cons e rest ih =>
    intro acc t hpost
    obtain ⟨k₀, v₀⟩ := e
    rw [List.foldl_cons, ih _ t (fun e he => hpost e (List.mem_cons_of_mem _ he))]
    by_cases hall : isKeywordAllowed .lm2002 k₀ = true
    · rw [relocateStep_of_allowed _ _ hall]
    · have hallf : isKeywordAllowed .lm2002 k₀ = false := by
        revert hall; cases isKeywordAllowed .lm2002 k₀ <;> simp
      obtain ⟨h1, h2, h3⟩ :
          k₀ ≠ t ∧ ("_" ++ k₀) ≠ t ∧ ¬(k₀ = "DATE" ∧ t = "ISSUEDATE") := by
        rcases hpost (k₀, v₀) (List.mem_cons_self _ _) with h' | h'
        · rw [h'] at hallf; exact Bool.noConfusion hallf
        · exact h'
      have htgt : t ≠ (if k₀ = "DATE" then "ISSUEDATE" else "_" ++ k₀) := by
        by_cases hd : k₀ = "DATE"
        · rw [if_pos hd]; intro he; exact h3 ⟨hd, he⟩
        · rw [if_neg hd]; intro he; exact h2 he.symm
      rw [relocateStep_of_not_allowed _ _ hallf,
        mapLookup_insert_ne _ _ _ _ htgt, mapLookup_erase,
        if_neg (fun he => h1 he.symm)]

lemma mapLookup_eq_some_split {m : List (String × String)} {k v : String}
    (h : mapLookup m k = some v) :
    ∃ m₁ m₂, m = m₁ ++ (k, v) :: m₂ ∧ k ∉ m₁.map Prod.fst := by
  induction m with
  | nil => simp [mapLookup] at h
  | cons e t ih =>
    obtain ⟨a, b⟩ := e
    by_cases hak : a = k
    · subst hak
      rw [mapLookup, if_pos rfl] at h
      obtain hbv := Option.some.inj h
      exact ⟨[], t, by simp [hbv], by simp⟩
    · rw [mapLookup, if_neg hak] at h
      obtain ⟨m₁, m₂, hm, hnot⟩ := ih h
      exact ⟨(a, b) :: m₁, m₂, by simp [hm], by simp [hnot, Ne.symm hak]⟩

lemma mapLookup_mem {m : List (String × String)} {k v : String}
    (h : mapLookup m k = some v) : (k, v) ∈ m := by
  induction m with
  | nil => simp [mapLookup] at h
  | cons e t ih =>
    obtain ⟨a, b⟩ := e
    by_cases hak : a = k
    · subst hak
      rw [mapLookup, if_pos rfl] at h
      have hb := Option.some.inj h
      subst hb
      exact List.mem_cons_self _ _
    · rw [mapLookup, if_neg hak] at h
      exact List.mem_cons_of_mem _ (ih h)

/-- The concrete input refuting C8 as stated: a valid 1995 model carrying
an 18-character keyword that the 2002 revision does not permit. -/
def upgradeCounterexampleInput : IES :=
  { Format := .lm1995, Keywords := [("ABCDEFGHIJKLMNOPQR", "x")] }

/-- **C8 counterexample.** The claim ends "afterwards every remaining
keyword is permitted for the 2002 revision". On the valid 1995 model whose
single keyword is the disallowed 18-character `ABCDEFGHIJKLMNOPQR`, `Upgrade`
succeeds and relocates it to the 19-character `_ABCDEFGHIJKLMNOPQR` — which
`isKeywordAllowed` rejects (keyword length over 18), so a keyword that is
not permitted remains in the upgraded model. -/
theorem upgrade_leaves_disallowed_keyword :
    (Upgrade upgradeCounterexampleInput).toOption.map
        (fun r => r.Keywords.all (fun e => isKeywordAllowed .lm2002 e.1)) =
      some false
    ∧ (Upgrade upgradeCounterexampleInput).toOption.map
        (fun r => mapLookup r.Keywords "_ABCDEFGHIJKLMNOPQR") =
      some (some "x")
    ∧ isKeywordAllowed .lm2002 "_ABCDEFGHIJKLMNOPQR" = false :=
  ⟨by decide, by decide, by decide⟩

/-- **C8 amended.** For every valid IES model (with the Go map's unique
keys) each of whose keywords is either permitted for the 2002 revision or
short enough that its underscore-prefixed relocation stays within the
18-character keyword limit (length at most 17), a successful `Upgrade` sets
the format to LM-63-2002, leaves all required 2002 keywords present
(inserting the placeholder for any that were missing), relocates every
keyword not permitted under 2002 to the underscore-prefixed custom keyword
with the same value — except `DATE`, which is renamed to `ISSUEDATE` — and
afterwards every remaining keyword is permitted for the 2002 revision. -/
theorem upgrade_amended (i res : IES)
    (hnd : (i.Keywords.map Prod.fst).Nodup)
    (hok : Upgrade i = .ok res)
    (hlen : ∀ e ∈ i.Keywords,
      isKeywordAllowed .lm2002 e.1 = true ∨ goLen e.1 ≤ 17) :
    res.Format = .lm2002
    ∧ containsRequiredKeywords .lm2002 res.Keywords = true
    ∧ (∀ k, (mapLookup res.Keywords k).isSome = true →
        isKeywordAllowed .lm2002 k = true)
    ∧ (∀ k v, mapLookup i.Keywords k = some v →
        isKeywordAllowed .lm2002 k = false →
        mapLookup res.Keywords k = none
        ∧ mapLookup res.Keywords
            (if k = "DATE" then "ISSUEDATE" else "_" ++ k) = some v) := by
  rw [Upgrade] at hok
  rcases hv : Validate i true with ⟨b, msg⟩
  rw [hv] at hok
  cases b
  · simp at hok
  · simp only [Except.ok.injEq] at hok
    subst hok
    set E := fixRequiredKeywords i.Keywords with hE
    have hlenE : ∀ e ∈ E, isKeywordAllowed .lm2002 e.1 = true ∨ goLen e.1 ≤ 17 := by
      intro e he
      rcases mem_fixRequiredKeywords he with h | h | h | h | h
      · exact hlen e h
      · left; rw [h]; decide
      · left; rw [h]; decide
      · left; rw [h]; decide
      · left; rw [h]; decide
    have hndE : (E.map Prod.fst).Nodup := nodup_keys_fixRequiredKeywords hnd
    have hcontE : containsRequiredKeywords .lm2002 E = true :=
      contains_fixRequiredKeywords i.Keywords
    refine ⟨rfl, ?_, ?_, ?_⟩
    · show containsRequiredKeywords .lm2002 (relocateKeywords E) = true
      simp only [containsRequiredKeywords, checkIesna02RequiredKeywords,
        List.all_cons, List.all_nil, Bool.and_true, Bool.and_eq_true] at hcontE ⊢
      obtain ⟨h1, h2, h3, h4⟩ := hcontE
      exact ⟨reloc_keeps_allowed E E _ (by decide) h1,
        reloc_keeps_allowed E E _ (by decide) h2,
        reloc_keeps_allowed E E _ (by decide) h3,
        reloc_keeps_allowed E E _ (by decide) h4⟩
    · intro k hk
      exact reloc_all_allowed E E hlenE
        (fun k' h => Or.inr (mapLookup_isSome_mem h)) k hk
    · intro k v hkv hna
      have hkT : k ≠ "TEST" := by
        intro he; subst he; revert hna; decide
      have hkTL : k ≠ "TESTLAB" := by
        intro he; subst he; revert hna; decide
      have hkI : k ≠ "ISSUEDATE" := by
        intro he; subst he; revert hna; decide
      have hkM : k ≠ "MANUFAC" := by
        intro he; subst he; revert hna; decide
      have hkvE : mapLookup E k = some v := by
        rw [hE, fixRequiredKeywords_lookup_ne _ _ hkT hkTL hkI hkM]
        exact hkv
      have hlenk : goLen k ≤ 17 := by
        rcases hlenE (k, v) (mapLookup_mem hkvE) with h | h
        · rw [h] at hna; exact Bool.noConfusion hna
        · exact h
      obtain ⟨E₁, E₂, hEsplit, hnotE₁⟩ := mapLookup_eq_some_split hkvE
      have hnotE₂ : k ∉ E₂.map Prod.fst := by
        have hkeys : E.map Prod.fst =
            E₁.map Prod.fst ++ k :: E₂.map Prod.fst := by
          rw [hEsplit]; simp
        have hnod := hndE
        rw [hkeys] at hnod
        exact (List.nodup_cons.1 (List.nodup_append.1 hnod).2.1).1
      have hfold : relocateKeywords E =
          E₂.foldl relocateStep
            (relocateStep (E₁.foldl relocateStep E) (k, v)) := by
        conv_lhs => rw [relocateKeywords]
        conv_lhs => rw [show E.foldl relocateStep E =
          List.foldl relocateStep E (E₁ ++ (k, v) :: E₂) from by rw [← hEsplit]]
        rw [List.foldl_append, List.foldl_cons]
      have hktgt : k ≠ (if k = "DATE" then "ISSUEDATE" else "_" ++ k) := by
        by_cases hd : k = "DATE"
        · subst hd; decide
        · rw [if_neg hd]; exact Ne.symm (underscore_append_ne_self k)
      have hstep : relocateStep (E₁.foldl relocateStep E) (k, v) =
          mapInsert (mapErase (E₁.foldl relocateStep E) k)
            (if k = "DATE" then "ISSUEDATE" else "_" ++ k) v :=
        relocateStep_of_not_allowed _ _ hna
      have hpostK : ∀ e ∈ E₂, isKeywordAllowed .lm2002 e.1 = true ∨
          (e.1 ≠ k ∧ ("_" ++ e.1) ≠ k ∧ ¬(e.1 = "DATE" ∧ k = "ISSUEDATE")) := by
        intro e he
        by_cases hall : isKeywordAllowed .lm2002 e.1 = true
        · exact Or.inl hall
        · right

          refine ⟨?_, ?_, ?_⟩
          · intro heq
            exact hnotE₂ (heq ▸ List.mem_map_of_mem Prod.fst he)
          · intro heq
            exact (not_underscore_head_of_not_allowed hna hlenk)
              (heq ▸ underscore_append_head e.1)
          · rintro ⟨-, hki⟩
            exact hkI hki
      have hpostTgt : ∀ e ∈ E₂, isKeywordAllowed .lm2002 e.1 = true ∨
          (e.1 ≠ (if k = "DATE" then "ISSUEDATE" else "_" ++ k) ∧
            ("_" ++ e.1) ≠ (if k = "DATE" then "ISSUEDATE" else "_" ++ k) ∧
            ¬(e.1 = "DATE" ∧
              (if k = "DATE" then "ISSUEDATE" else "_" ++ k) = "ISSUEDATE")) := by
        intro e he
        by_cases hall : isKeywordAllowed .lm2002 e.1 = true
        · exact Or.inl hall
        · have hallf : isKeywordAllowed .lm2002 e.1 = false := by
            revert hall; cases isKeywordAllowed .lm2002 e.1 <;> simp
          have heE : e ∈ E := by
            rw [hEsplit]
            exact List.mem_append_right _ (List.mem_cons_of_mem _ he)
          have hlene : goLen e.1 ≤ 17 := by
            rcases hlenE e heE with h | h
            · exact absurd h hall
            · exact h
          have hehead : e.1.data.head? ≠ some '_' :=
            not_underscore_head_of_not_allowed hallf hlene
          right
          by_cases hd : k = "DATE"
          · subst hd
            rw [if_pos rfl]
            refine ⟨?_, ?_, ?_⟩
            · intro heq
              rw [heq] at hallf
              exact absurd hallf (by decide)
            · exact underscore_append_ne_of_head (by decide)
            · rintro ⟨hed, -⟩
              exact hnotE₂ (hed ▸ List.mem_map_of_mem Prod.fst he)
          · rw [if_neg hd]
            refine ⟨?_, ?_, ?_⟩
            · intro heq
              exact hehead (heq ▸ underscore_append_head k)
            · intro heq
              exact hnotE₂
                ((underscore_append_inj heq) ▸ List.mem_map_of_mem Prod.fst he)
            · rintro ⟨-, hiu⟩
              exact underscore_append_ne_of_head (s := k) (by decide) hiu
      constructor
      · show mapLookup (relocateKeywords E) k = none
        rw [hfold, reloc_preserve E₂ _ k hpostK, hstep,
          mapLookup_insert_ne _ _ _ _ hktgt, mapLookup_erase, if_pos rfl]
      · show mapLookup (relocateKeywords E)
          (if k = "DATE" then "ISSUEDATE" else "_" ++ k) = some v
        rw [hfold, reloc_preserve E₂ _ _ hpostTgt, hstep,
          mapLookup_insert_self]

/-- The concrete input for C8's amended-theorem witness: a valid 1995 model
with the legacy keyword `DATE` and the non-2002 keyword `FOO`. -/
def upgradeWitnessInput : IES :=
  { Format := .lm1995, Keywords := [("DATE", "d"), ("FOO", "f")] }

/-- Witness for C8's amended theorem: upgrading `upgradeWitnessInput`
relocates `DATE` to `ISSUEDATE` and `FOO` to `_FOO` and yields an
all-permitted 2002 model. -/
theorem upgrade_amended_witness :
    ∃ res, Upgrade upgradeWitnessInput = .ok res
      ∧ res.Format = .lm2002
      ∧ containsRequiredKeywords .lm2002 res.Keywords = true
      ∧ mapLookup res.Keywords "ISSUEDATE" = some "d"
      ∧ mapLookup res.Keywords "_FOO" = some "f"
      ∧ mapLookup res.Keywords "DATE" = none
      ∧ mapLookup res.Keywords "FOO" = none := by
  refine ⟨_, rfl, ?_⟩
  have h := upgrade_amended upgradeWitnessInput _ (by decide) rfl (by decide)
  obtain ⟨h1, h2, -, h4⟩ := h
  obtain ⟨hd1, hd2⟩ := h4 "DATE" "d" (by decide) (by decide)
  obtain ⟨hf1, hf2⟩ := h4 "FOO" "f" (by decide) (by decide)
  rw [if_pos rfl] at hd2
  rw [if_neg (by decide : ¬("FOO" : String) = "DATE")] at hf2
  exact ⟨h1, h2, hd2, hf2, hd1, hf1⟩

end Eulumies
